import Mathlib

/-!
Verification of the streaming EMA anomaly detector (`src/main.py`).

The numeric code is embedded with exact rational arithmetic (`ℚ`) in place
of IEEE floats; `np.std` is embedded as the real square root of the
population variance (`ddof = 0`), so the anomaly comparison lives in `ℝ`.
Python lists / numpy arrays become `List ℚ`, exceptions become `Except`.
-/

/-- `np.mean l`: sum divided by length (junk value `0` on `[]`, where numpy
would produce NaN; no claim depends on the empty case). -/
def mean (l : List ℚ) : ℚ := l.sum / l.length

/-- Population variance, i.e. `np.std(l) ** 2` with the default `ddof = 0`:
the mean of the squared deviations from the mean. -/
def pvariance (l : List ℚ) : ℚ := (l.map (fun x => (x - mean l) ^ 2)).sum / l.length

lemma pvariance_nonneg (l : List ℚ) : 0 ≤ pvariance l := by
  unfold pvariance
  apply div_nonneg
  · apply List.sum_nonneg
    intro x hx
    obtain ⟨y, _, rfl⟩ := List.mem_map.mp hx
    positivity
  · exact_mod_cast Nat.zero_le l.length

/-- The anomaly test of `main.py` line 35:
`abs(data[i] - moving_avg) > threshold * np.std(data[:i+1])`,
with `x = data[i]`, `m = moving_avg`, `t = threshold` and `l = data[:i+1]`. -/
def anomalous (x m t : ℚ) (l : List ℚ) : Prop :=
  |(x : ℝ) - (m : ℝ)| > (t : ℝ) * Real.sqrt ((pvariance l : ℚ) : ℝ)

lemma sqrt_test_iff (a v t : ℝ) (ha : 0 ≤ a) (hv : 0 ≤ v) :
    t * Real.sqrt v < a ↔
      ((0 ≤ t ∧ 0 < a ∧ t * t * v < a * a) ∨ (t < 0 ∧ (0 < a ∨ 0 < v))) := by
  rcases le_or_lt 0 t with ht | ht
  · constructor
    · intro h
      have hts : 0 ≤ t * Real.sqrt v := mul_nonneg ht (Real.sqrt_nonneg v)
      have ha' : 0 < a := lt_of_le_of_lt hts h
      refine Or.inl ⟨ht, ha', ?_⟩
      have h2 : (t * Real.sqrt v) * (t * Real.sqrt v) < a * a :=
        mul_self_lt_mul_self hts h
      have h3 : Real.sqrt v * Real.sqrt v = v := Real.mul_self_sqrt hv
      nlinarith [h2, h3]
    · rintro (⟨ht0, ha0, hlt⟩ | ⟨ht0, _⟩)
      · by_contra hcon
        push_neg at hcon
        have h2 : a * a ≤ (t * Real.sqrt v) * (t * Real.sqrt v) :=
          mul_self_le_mul_self ha hcon
        have h3 : Real.sqrt v * Real.sqrt v = v := Real.mul_self_sqrt hv
        nlinarith [h2, h3]
      · linarith
  · constructor
    · intro h
      refine Or.inr ⟨ht, ?_⟩
      by_contra hcon
      push_neg at hcon
      obtain ⟨ha0, hv0⟩ := hcon
      have hA : a = 0 := le_antisymm ha0 ha
      have hV : v = 0 := le_antisymm hv0 hv
      rw [hA, hV, Real.sqrt_zero, mul_zero] at h
      exact lt_irrefl 0 h
    · rintro (⟨ht0, ha0, hlt⟩ | ⟨ht0, hor⟩)
      · linarith
      · rcases hor with ha0 | hv0
        · nlinarith [Real.sqrt_nonneg v]
        · have hs : 0 < Real.sqrt v := Real.sqrt_pos.mpr hv0
          nlinarith

/-- The `np.std` comparison restated with purely rational arithmetic, which
makes it decidable (and hence the anomaly filter computable). -/
lemma anomalous_iff (x m t : ℚ) (l : List ℚ) :
    anomalous x m t l ↔
      ((0 ≤ t ∧ 0 < |x - m| ∧ t * t * pvariance l < |x - m| * |x - m|) ∨
        (t < 0 ∧ (0 < |x - m| ∨ 0 < pvariance l))) := by
  have hv : (0 : ℝ) ≤ ((pvariance l : ℚ) : ℝ) := by exact_mod_cast pvariance_nonneg l
  have ha : (0 : ℝ) ≤ |(x : ℝ) - (m : ℝ)| := abs_nonneg _
  have key := sqrt_test_iff (|(x : ℝ) - (m : ℝ)|) ((pvariance l : ℚ) : ℝ) (t : ℝ) ha hv
  have habs : |(x : ℝ) - (m : ℝ)| = ((|x - m| : ℚ) : ℝ) := by push_cast; ring_nf
  rw [anomalous, gt_iff_lt, key, habs]
  constructor
  · rintro (⟨h1, h2, h3⟩ | ⟨h1, (h2 | h2)⟩)
    · exact Or.inl ⟨by exact_mod_cast h1, by exact_mod_cast h2, by exact_mod_cast h3⟩
    · exact Or.inr ⟨by exact_mod_cast h1, Or.inl (by exact_mod_cast h2)⟩
    · exact Or.inr ⟨by exact_mod_cast h1, Or.inr (by exact_mod_cast h2)⟩
  · rintro (⟨h1, h2, h3⟩ | ⟨h1, (h2 | h2)⟩)
    · exact Or.inl ⟨by exact_mod_cast h1, by exact_mod_cast h2, by exact_mod_cast h3⟩
    · exact Or.inr ⟨by exact_mod_cast h1, Or.inl (by exact_mod_cast h2)⟩
    · exact Or.inr ⟨by exact_mod_cast h1, Or.inr (by exact_mod_cast h2)⟩

instance anomalousDec (x m t : ℚ) (l : List ℚ) : Decidable (anomalous x m t l) :=
  decidable_of_iff _ (anomalous_iff x m t l).symm

/-- The body of the `for i in range(len(data))` loop of `EMA` (lines 29-36):
given the incoming `moving_avg` and the list of remaining loop indices, it
updates the average (only when `i >= window_size`), appends it to `ema`, and
flags `i` when the deviation exceeds `threshold * np.std(data[:i+1])`. -/
def emaGo (data : List ℚ) (ws : ℕ) (t : ℚ) (ma : ℚ) : List ℕ → List ℚ × List ℕ
  | [] => ([], [])
  | i :: rest =>
      let x := data.getD i 0
      let ma' := if ws ≤ i then (ma * ((ws : ℚ) - 1) + x) / (ws : ℚ) else ma
      let r := emaGo data ws t ma' rest
      (ma' :: r.1, if anomalous x ma' t (data.take (i + 1)) then i :: r.2 else r.2)

/-- `EMA(data, window_size, threshold)` from `main.py` lines 24-38: seeds the
moving average with `np.mean(data[:window_size])` and runs the loop, returning
`(ema, anomalies)`. -/
def EMA (data : List ℚ) (ws : ℕ) (t : ℚ) : List ℚ × List ℕ :=
  emaGo data ws t (mean (data.take ws)) (List.range data.length)

/-- Closed form of the moving-average value the loop holds after processing
index `i` (the value appended to `ema` at index `i`). -/
def baselineAt (data : List ℚ) (ws : ℕ) : ℕ → ℚ
  | 0 =>
      if 0 < ws then mean (data.take ws)
      else (mean (data.take ws) * ((ws : ℚ) - 1) + data.getD 0 0) / (ws : ℚ)
  | i + 1 =>
      if i + 1 < ws then mean (data.take ws)
      else (baselineAt data ws i * ((ws : ℚ) - 1) + data.getD (i + 1) 0) / (ws : ℚ)

/-- The moving-average value the loop holds on entry to index `i`. -/
def entryState (data : List ℚ) (ws : ℕ) : ℕ → ℚ
  | 0 => mean (data.take ws)
  | i + 1 => baselineAt data ws i

/-- The anomaly test performed at loop index `i`. -/
def anomTest (data : List ℚ) (ws : ℕ) (t : ℚ) (i : ℕ) : Prop :=
  anomalous (data.getD i 0) (baselineAt data ws i) t (data.take (i + 1))

instance anomTestDec (data : List ℚ) (ws : ℕ) (t : ℚ) (i : ℕ) :
    Decidable (anomTest data ws t i) := by
  unfold anomTest; infer_instance

lemma baselineAt_of_lt (data : List ℚ) (ws : ℕ) :
    ∀ i, i < ws → baselineAt data ws i = mean (data.take ws) := by
  intro i hi
  cases i with
  | zero => simp [baselineAt, hi]
  | succ j => simp [baselineAt, hi]

lemma step_entryState (data : List ℚ) (ws : ℕ) (i : ℕ) :
    (if ws ≤ i then (entryState data ws i * ((ws : ℚ) - 1) + data.getD i 0) / (ws : ℚ)
      else entryState data ws i) = baselineAt data ws i := by
  cases i with
  | zero =>
      by_cases h : ws ≤ 0
      · have hws : ¬ 0 < ws := by omega
        simp [entryState, baselineAt, h, hws]
      · have hws : 0 < ws := by omega
        simp [entryState, baselineAt, h, hws]
  | succ j =>
      by_cases h : ws ≤ j + 1
      · have hws : ¬ (j + 1 < ws) := by omega
        simp [entryState, baselineAt, h, hws]
      · have hws : j + 1 < ws := by omega
        have hj : j < ws := by omega
        simp [entryState, baselineAt, h, hws, baselineAt_of_lt data ws j hj]

lemma emaGo_range' (data : List ℚ) (ws : ℕ) (t : ℚ) :
    ∀ (k i : ℕ),
      emaGo data ws t (entryState data ws i) (List.range' i k) =
        ((List.range' i k).map (baselineAt data ws),
          (List.range' i k).filter (fun j => decide (anomTest data ws t j))) := by
  intro k
  induction k with
  | zero => intro i; simp [emaGo]
  | succ n ih =>
      intro i
      have hstep := step_entryState data ws i
      have ih' := ih (i + 1)
      rw [show entryState data ws (i + 1) = baselineAt data ws i from rfl] at ih'
      rw [List.range'_succ]
      simp only [emaGo, hstep, ih', List.map_cons, List.filter_cons, anomTest,
        decide_eq_true_eq]

/-- Backbone: the loop output in closed form — the baseline sequence is
`baselineAt` mapped over all indices, and the anomaly list is the filter of
the per-index test over all indices, in increasing order. -/
theorem EMA_eq (data : List ℚ) (ws : ℕ) (t : ℚ) :
    EMA data ws t =
      ((List.range data.length).map (baselineAt data ws),
        (List.range data.length).filter (fun j => decide (anomTest data ws t j))) := by
  have h := emaGo_range' data ws t data.length 0
  rw [EMA, List.range_eq_range']
  exact h

lemma length_baseline (data : List ℚ) (ws : ℕ) (t : ℚ) :
    (EMA data ws t).1.length = data.length := by
  rw [EMA_eq]; simp

lemma baseline_getD (data : List ℚ) (ws : ℕ) (t : ℚ) {i : ℕ} (h : i < data.length) :
    (EMA data ws t).1.getD i 0 = baselineAt data ws i := by
  rw [EMA_eq]
  have hlen : i < ((List.range data.length).map (baselineAt data ws)).length := by
    simpa using h
  rw [List.getD_eq_getElem _ _ hlen, List.getElem_map, List.getElem_range]

lemma mem_anomalies (data : List ℚ) (ws : ℕ) (t : ℚ) (i : ℕ) :
    i ∈ (EMA data ws t).2 ↔ i < data.length ∧ anomTest data ws t i := by
  rw [EMA_eq]
  simp [List.mem_filter, List.mem_range]

/-- The values Python `float(...)` can produce, with finite floats idealized
as exact rationals. -/
inductive PyFloat where
  | finite (q : ℚ)
  | inf
  | neginf
  | nan
deriving DecidableEq

/-- ASCII whitespace stripped by Python `float(str)` before parsing. -/
def isPySpace (c : Char) : Bool :=
  c = ' ' || c = '\t' || c = '\n' || c = '\r' || c = '\x0b' || c = '\x0c'

/-- Consume a maximal run of decimal digits, returning `(digits, rest)`. -/
def digitRun : List Char → List Char × List Char
  | [] => ([], [])
  | c :: rest =>
      if c.isDigit then
        let p := digitRun rest
        (c :: p.1, p.2)
      else ([], c :: rest)

/-- Optional leading sign; returns `(isNegative, rest)`. -/
def signSplit : List Char → Bool × List Char
  | '+' :: r => (false, r)
  | '-' :: r => (true, r)
  | l => (false, l)

/-- Decimal value of a digit string. -/
def digitsVal (ds : List Char) : ℕ :=
  ds.foldl (fun n c => 10 * n + (c.toNat - 48)) 0

/-- Fractional part after the integer digits: a dot followed by digits. -/
def fracSplit : List Char → List Char × List Char
  | '.' :: r => digitRun r
  | l => ([], l)

/-- A signed digit string that must consume the whole input (the exponent of
a float literal). -/
def signedDigits (l : List Char) : Option ℤ :=
  let s := signSplit l
  let d := digitRun s.2
  if d.1 = [] ∨ d.2 ≠ [] then none
  else some (if s.1 then -(digitsVal d.1 : ℤ) else (digitsVal d.1 : ℤ))

/-- Exponent suffix: empty, or `e`/`E` followed by a signed digit string. -/
def expSplit : List Char → Option ℤ
  | [] => some 0
  | 'e' :: r => signedDigits r
  | 'E' :: r => signedDigits r
  | _ => none

/-- CPython's decimal float literal (unsigned part): digits, an optional
fraction, an optional exponent, with at least one mantissa digit and nothing
left over. PEP 515 underscore grouping (accepted by Python 3.10 `float`) is
not modelled; no claim exercises it. -/
def decLit (l : List Char) : Option ℚ :=
  let ipr := digitRun l
  let fpr := fracSplit ipr.2
  if ipr.1 = [] ∧ fpr.1 = [] then none
  else
    match expSplit fpr.2 with
    | none => none
    | some e =>
        some ((digitsVal (ipr.1 ++ fpr.1) : ℚ) / (10 : ℚ) ^ fpr.1.length * (10 : ℚ) ^ e)

/-- Python `float(raw)` on a string: strip whitespace, optional sign, then a
case-insensitive `inf`/`infinity`/`nan` word or a decimal literal; `none`
models the `ValueError` raised on anything else. -/
def pyFloat (s : String) : Option PyFloat :=
  let l1 := s.toList.dropWhile isPySpace
  let l := (l1.reverse.dropWhile isPySpace).reverse
  let sp := signSplit l
  let low := sp.2.map Char.toLower
  if low = ['i', 'n', 'f'] ∨ low = ['i', 'n', 'f', 'i', 'n', 'i', 't', 'y'] then
    some (if sp.1 then PyFloat.neginf else PyFloat.inf)
  else if low = ['n', 'a', 'n'] then some PyFloat.nan
  else
    match decLit sp.2 with
    | some q => some (PyFloat.finite (if sp.1 then -q else q))
    | none => none

/-- `preprocess` (`main.py` lines 40-47): `float(new_data_point)`, re-raised
as `ValueError("Invalid input! ...")` when the conversion fails. -/
def preprocess (raw : String) : Except String PyFloat :=
  match pyFloat raw with
  | some v => Except.ok v
  | none => Except.error "Invalid input! Please enter a valid floating-point number."

/-- `update` (`main.py` lines 49-57). `new_data = np.append(data, x)` builds a
fresh array; the eviction branch then runs `data.pop(0)` on the *argument*
when `len(data) > max_window_size` — a numpy array has no `pop`, so that
branch raises `AttributeError`, and in no case is `new_data` shortened. -/
def update (x : ℚ) (data : List ℚ) (maxws : ℕ) : Except String (List ℚ) :=
  if maxws < data.length then Except.error "AttributeError"
  else Except.ok (data ++ [x])

/-- Appending a whole batch of samples through `update`, threading the store. -/
def appendAll (samples : List ℚ) (data : List ℚ) (maxws : ℕ) : Except String (List ℚ) :=
  samples.foldlM (fun d x => update x d maxws) data

/-- Non-finite parsed floats fall outside the rational idealization of the
store; they are mapped to `0` here. Only the finite case is exercised by any
claim (the error path never reaches the store at all). -/
def PyFloat.toRat : PyFloat → ℚ
  | PyFloat.finite q => q
  | _ => 0

/-- `process_data` (`main.py` lines 67-77): append through `update` (default
`max_window_size = 1e6`), then recompute `EMA` on the grown store with the
call-site defaults `window_size = 50`, `threshold = 3`. -/
def process_data (x : ℚ) (data : List ℚ) : Except String (List ℚ × List ℚ × List ℕ) :=
  match update x data 1000000 with
  | Except.error e => Except.error e
  | Except.ok d => Except.ok (d, (EMA d 50 3).1, (EMA d 50 3).2)

/-- One iteration of the interactive loop (`main.py` lines 86-98): validate
the raw token, and only on success run `process_data` on the session store.
A `ValueError` from `preprocess` propagates before any store mutation. -/
def submit (raw : String) (data : List ℚ) : Except String (List ℚ × List ℚ × List ℕ) :=
  match preprocess raw with
  | Except.error e => Except.error e
  | Except.ok v => process_data v.toRat data

/-- The value the loop's `data` variable holds after one iteration on `raw`:
the new store on success, the untouched old store when an exception ends the
iteration early. -/
def storeAfter (raw : String) (data : List ℚ) : List ℚ :=
  match submit raw data with
  | Except.ok r => r.1
  | Except.error _ => data

/-- Cost model of the dispersion computation inside the `EMA` loop: at loop
index `i`, line 35 evaluates `np.std(data[:i+1])`, a fresh pass over the
whole prefix; this counts the total number of samples scanned by those
passes over one `compute` call. -/
def emaStdScans (data : List ℚ) : ℕ :=
  ((List.range data.length).map (fun i => (data.take (i + 1)).length)).sum

lemma mean_const (l : List ℚ) (c : ℚ) (h0 : l ≠ []) (hc : ∀ y ∈ l, y = c) :
    mean l = c := by
  have hrep := List.eq_replicate_of_mem hc
  have hn : l.length ≠ 0 := by
    simpa [List.length_eq_zero] using h0
  rw [mean, hrep]
  simp only [List.sum_replicate, List.length_replicate, nsmul_eq_mul]
  exact mul_div_cancel_left₀ c (by exact_mod_cast hn)

lemma getD_const {s : List ℚ} {c : ℚ} (hc : ∀ y ∈ s, y = c) {i : ℕ}
    (h : i < s.length) : s.getD i 0 = c := by
  rw [List.getD_eq_getElem _ _ h]
  exact hc _ (List.getElem_mem h)

lemma not_anomalous_self (x t : ℚ) (l : List ℚ) (ht : 0 ≤ t) :
    ¬ anomalous x x t l := by
  intro h
  rw [anomalous, sub_self, abs_zero] at h
  have hge : (0 : ℝ) ≤ (t : ℝ) * Real.sqrt ((pvariance l : ℚ) : ℝ) :=
    mul_nonneg (by exact_mod_cast ht) (Real.sqrt_nonneg _)
  exact absurd h (not_lt.mpr hge)

/-- C1: the baseline sequence returned by `compute` is the seed mean
`mean(store[:window_size])` (the arithmetic mean of the first
`min(window_size, len(store))` samples, since `List.take` truncates) on every
index below `window_size`, and from `window_size` onward satisfies the EMA
recurrence `baseline[i] = (baseline[i-1]*(window_size-1) + store[i]) / window_size`. -/
theorem claim1_baseline_seed_and_recurrence (s : List ℚ) (ws : ℕ) (t : ℚ)
    (hws : 1 ≤ ws) :
    ∀ i, i < s.length →
      ((i < ws → (EMA s ws t).1.getD i 0 = mean (s.take ws)) ∧
        (ws ≤ i → (EMA s ws t).1.getD i 0 =
          ((EMA s ws t).1.getD (i - 1) 0 * ((ws : ℚ) - 1) + s.getD i 0) / (ws : ℚ))) := by
  intro i hi
  constructor
  · intro hlt
    rw [baseline_getD s ws t hi, baselineAt_of_lt s ws i hlt]
  · intro hge
    obtain ⟨j, rfl⟩ : ∃ j, i = j + 1 := ⟨i - 1, by omega⟩
    rw [baseline_getD s ws t hi]
    have hj : j < s.length := by omega
    rw [show (j + 1 - 1) = j from rfl, baseline_getD s ws t hj]
    have hnot : ¬ (j + 1 < ws) := by omega
    simp [baselineAt, hnot]

theorem claim1_witness :
    1 ≤ 2 ∧
      (EMA [4, 6, 8] 2 1).1.getD 2 0 =
        ((EMA [4, 6, 8] 2 1).1.getD 1 0 * ((2 : ℚ) - 1) +
          ([4, 6, 8] : List ℚ).getD 2 0) / (2 : ℚ) := by
  constructor
  · decide
  · exact ((claim1_baseline_seed_and_recurrence [4, 6, 8] 2 1 (by decide)) 2
      (by decide)).2 (by decide)

/-- C2: an index is in the returned anomaly list exactly when it is a valid
store index and `|store[i] - baseline[i]| > threshold * np.std(store[:i+1])`
(the standard deviation of the prefix through `i` inclusive); the comparison
is strict, so exact equality never flags an index. -/
theorem claim2_anomaly_characterization (s : List ℚ) (ws : ℕ) (t : ℚ)
    (hws : 1 ≤ ws) (ht : 0 < t) :
    ∀ i, i ∈ (EMA s ws t).2 ↔
      (i < s.length ∧
        |(s.getD i 0 : ℝ) - ((EMA s ws t).1.getD i 0 : ℝ)| >
          (t : ℝ) * Real.sqrt ((pvariance (s.take (i + 1)) : ℚ) : ℝ)) := by
  intro i
  rw [mem_anomalies]
  constructor
  · rintro ⟨hi, htest⟩
    refine ⟨hi, ?_⟩
    rw [baseline_getD s ws t hi]
    exact htest
  · rintro ⟨hi, hineq⟩
    refine ⟨hi, ?_⟩
    rw [baseline_getD s ws t hi] at hineq
    exact hineq

/-- C3: the baseline sequence has exactly one entry per store index, the
anomaly list is strictly increasing with every entry a valid store index,
and the length equality persists under any sequence of `submit` calls. -/
theorem claim3_output_shape (s : List ℚ) (ws : ℕ) (t : ℚ) :
    (EMA s ws t).1.length = s.length ∧
      List.Pairwise (· < ·) (EMA s ws t).2 ∧
      (∀ i ∈ (EMA s ws t).2, i < s.length) ∧
      (∀ (raws : List String) (d : List ℚ),
        (EMA (raws.foldl (fun acc r => storeAfter r acc) d) ws t).1.length =
          (raws.foldl (fun acc r => storeAfter r acc) d).length) := by
  refine ⟨length_baseline s ws t, ?_, ?_, ?_⟩
  · rw [EMA_eq]
    exact (List.pairwise_lt_range s.length).filter _
  · intro i hi
    exact ((mem_anomalies s ws t i).mp hi).1
  · intro raws d
    exact length_baseline _ ws t

lemma baselineAt_const (s : List ℚ) (c : ℚ) (ws : ℕ) (hws : 1 ≤ ws)
    (hlen : 1 ≤ s.length) (hc : ∀ y ∈ s, y = c) :
    ∀ i, i < s.length → baselineAt s ws i = c := by
  have htk : mean (s.take ws) = c := by
    apply mean_const
    · have hpos : 0 < (s.take ws).length := by
        rw [List.length_take]; omega
      exact List.ne_nil_of_length_pos hpos
    · intro y hy
      exact hc y (List.take_subset ws s hy)
  intro i
  induction i with
  | zero =>
      intro h0
      simp [baselineAt, show 0 < ws from by omega, htk]
  | succ j ih =>
      intro hj
      by_cases hw : j + 1 < ws
      · simp [baselineAt, hw, htk]
      · have hrec := ih (by omega)
        have hgd : s.getD (j + 1) 0 = c := getD_const hc hj
        have hws0 : (ws : ℚ) ≠ 0 := by exact_mod_cast (by omega : ws ≠ 0)
        simp only [baselineAt, if_neg hw, hrec, hgd]
        field_simp
        ring

/-- C10: on a constant stream every baseline entry equals the constant and
no index is flagged: the deviation is 0 while `threshold * std` is
nonnegative, so the strict test never fires. -/
theorem claim10_constant_stream (s : List ℚ) (c : ℚ) (ws : ℕ) (t : ℚ)
    (hws : 1 ≤ ws) (ht : 0 < t) (hlen : 1 ≤ s.length) (hc : ∀ y ∈ s, y = c) :
    (EMA s ws t).1 = List.replicate s.length c ∧ (EMA s ws t).2 = [] := by
  have hb := baselineAt_const s c ws hws hlen hc
  constructor
  · rw [EMA_eq]
    have hmem : ∀ b ∈ (List.range s.length).map (baselineAt s ws), b = c := by
      intro b hb'
      obtain ⟨i, hi, rfl⟩ := List.mem_map.mp hb'
      exact hb i (List.mem_range.mp hi)
    have h2 := List.eq_replicate_of_mem hmem
    simpa using h2
  · rw [EMA_eq]
    rw [List.filter_eq_nil_iff]
    intro a ha
    have hi := List.mem_range.mp ha
    simp only [decide_eq_true_eq]
    intro htest
    have hg : s.getD a 0 = c := getD_const hc hi
    have hcc : anomalous c c t (s.take (a + 1)) := by
      rw [show anomTest s ws t a =
        anomalous (s.getD a 0) (baselineAt s ws a) t (s.take (a + 1)) from rfl] at htest
      rw [hg, hb a hi] at htest
      exact htest
    exact not_anomalous_self c t _ (le_of_lt ht) hcc

theorem claim10_witness :
    (1 ≤ 2 ∧ (0 : ℚ) < 1 ∧ 1 ≤ ([3, 3] : List ℚ).length ∧
        ∀ y ∈ ([3, 3] : List ℚ), y = 3) ∧
      ((EMA [3, 3] 2 1).1 = List.replicate ([3, 3] : List ℚ).length 3 ∧
        (EMA [3, 3] 2 1).2 = []) :=
  ⟨⟨by decide, by norm_num, by decide, by intro y hy; simpa using hy⟩,
    claim10_constant_stream [3, 3] 3 2 1 (by decide) (by norm_num) (by decide)
      (by intro y hy; simpa using hy)⟩

/-- C5 counterexample: with store `[0, 2]`, `window_size = 2`, `threshold = 1`,
index 0 IS flagged: `baseline[0] = mean([0,2]) = 1 ≠ store[0] = 0` while the
dispersion of the one-sample prefix `[0]` is 0, so `|0 - 1| > 1 * 0` holds. -/
theorem claim5_counterexample : 0 ∈ (EMA [0, 2] 2 1).2 := by
  rw [mem_anomalies]
  refine ⟨by decide, ?_⟩
  show anomalous (([0, 2] : List ℚ).getD 0 0) (baselineAt [0, 2] 2 0) 1
    (([0, 2] : List ℚ).take (0 + 1))
  rw [show (([0, 2] : List ℚ).getD 0 0) = 0 from rfl]
  rw [show (([0, 2] : List ℚ).take (0 + 1)) = [0] from rfl]
  rw [show baselineAt [0, 2] 2 0 = mean (([0, 2] : List ℚ).take 2) from by
    simp [baselineAt]]
  rw [show (([0, 2] : List ℚ).take 2) = [0, 2] from rfl]
  rw [anomalous_iff]
  left
  norm_num [mean, pvariance]

/-- C5 amended: index 0 is never anomalous provided `baseline[0]` coincides
with `store[0]`, which holds whenever `window_size = 1` or the store has
length 1 (the original claim's "for every store and window_size" fails, see
the counterexample); in particular the `[5]`, `window_size = 1` scenario
yields baseline `[5]` and no anomalies. -/
theorem claim5_index0_not_anomalous (s : List ℚ) (ws : ℕ) (t : ℚ)
    (hws : 1 ≤ ws) (ht : 0 < t) (hlen : 1 ≤ s.length)
    (hcase : ws = 1 ∨ s.length = 1) :
    0 ∉ (EMA s ws t).2 ∧
      ((EMA [(5 : ℚ)] 1 t).1 = [5] ∧ (EMA [(5 : ℚ)] 1 t).2 = []) := by
  constructor
  · intro hmem
    obtain ⟨h0, htest⟩ := (mem_anomalies s ws t 0).mp hmem
    obtain ⟨a, l, rfl⟩ : ∃ a l, s = a :: l := by
      cases s with
      | nil => exact absurd hlen (by norm_num)
      | cons a l => exact ⟨a, l, rfl⟩
    have hb : baselineAt (a :: l) ws 0 = a := by
      have h0ws : 0 < ws := by omega
      rcases hcase with h1 | h1
      · subst h1
        simp [baselineAt, mean]
      · have hl : l = [] := by
          cases l with
          | nil => rfl
          | cons b m => exact absurd h1 (by simp)
        subst hl
        have htk : ([a] : List ℚ).take ws = [a] :=
          List.take_of_length_le (by simpa using hws)
        simp [baselineAt, h0ws, htk, mean]
    have hAA : anomalous a a t ((a :: l).take (0 + 1)) := by
      rw [show anomTest (a :: l) ws t 0 =
        anomalous ((a :: l).getD 0 0) (baselineAt (a :: l) ws 0) t
          ((a :: l).take (0 + 1)) from rfl] at htest
      rw [show ((a :: l).getD 0 0) = a from rfl, hb] at htest
      exact htest
    exact not_anomalous_self a t _ (le_of_lt ht) hAA
  · constructor
    · rw [EMA_eq]
      rw [show List.range ([(5 : ℚ)] : List ℚ).length = [0] from rfl]
      rw [List.map_cons, List.map_nil]
      rw [show baselineAt [(5 : ℚ)] 1 0 = 5 from by simp [baselineAt, mean]]
    · rw [EMA_eq]
      rw [show List.range ([(5 : ℚ)] : List ℚ).length = [0] from rfl]
      have hnot : ¬ anomTest [(5 : ℚ)] 1 t 0 := by
        show ¬ anomalous (([(5 : ℚ)] : List ℚ).getD 0 0) (baselineAt [(5 : ℚ)] 1 0) t
          (([(5 : ℚ)] : List ℚ).take (0 + 1))
        rw [show (([(5 : ℚ)] : List ℚ).getD 0 0) = 5 from rfl]
        rw [show baselineAt [(5 : ℚ)] 1 0 = 5 from by simp [baselineAt, mean]]
        exact not_anomalous_self 5 t _ (le_of_lt ht)
      simp [hnot]

theorem claim5_witness :
    (1 ≤ 1 ∧ (0 : ℚ) < 1 ∧ 1 ≤ ([(5 : ℚ)] : List ℚ).length ∧
        ((1 : ℕ) = 1 ∨ ([(5 : ℚ)] : List ℚ).length = 1)) ∧
      (0 ∉ (EMA [(5 : ℚ)] 1 1).2 ∧
        ((EMA [(5 : ℚ)] 1 1).1 = [5] ∧ (EMA [(5 : ℚ)] 1 1).2 = [])) :=
  ⟨⟨by decide, by norm_num, by decide, Or.inl rfl⟩,
    claim5_index0_not_anomalous [(5 : ℚ)] 1 1 (by decide) (by norm_num) (by decide)
      (Or.inl rfl)⟩

lemma baselineAt_append (s : List ℚ) (x : ℚ) (ws : ℕ) (hws : ws ≤ s.length) :
    ∀ i, i < s.length → baselineAt (s ++ [x]) ws i = baselineAt s ws i := by
  have htake : (s ++ [x]).take ws = s.take ws := List.take_append_of_le_length hws
  intro i
  induction i with
  | zero =>
      intro h0
      by_cases hw : 0 < ws
      · simp only [baselineAt, if_pos hw, htake]
      · have hgd := List.getD_append s [x] 0 0 h0
        simp only [baselineAt, if_neg hw, htake, hgd]
  | succ j ih =>
      intro hj
      by_cases hw : j + 1 < ws
      · simp only [baselineAt, if_pos hw, htake]
      · have hgd := List.getD_append s [x] 0 (j + 1) hj
        have hrec := ih (by omega)
        simp only [baselineAt, if_neg hw, htake, hgd, hrec]

/-- C7 counterexample: with `window_size = 3 > len(store)` the seed mean
shifts when a sample arrives. On `[0, 2]` (baseline seed `1`) index 0 is
flagged; after appending `-2` the seed becomes `mean([0,2,-2]) = 0 = store[0]`
and index 0 is no longer flagged — a previously flagged index is un-flagged. -/
theorem claim7_counterexample :
    0 ∈ (EMA [0, 2] 3 1).2 ∧ 0 ∉ (EMA [0, 2, -2] 3 1).2 := by
  constructor
  · rw [mem_anomalies]
    refine ⟨by decide, ?_⟩
    show anomalous (([0, 2] : List ℚ).getD 0 0) (baselineAt [0, 2] 3 0) 1
      (([0, 2] : List ℚ).take (0 + 1))
    rw [show (([0, 2] : List ℚ).getD 0 0) = 0 from rfl]
    rw [show (([0, 2] : List ℚ).take (0 + 1)) = [0] from rfl]
    rw [show baselineAt [0, 2] 3 0 = mean (([0, 2] : List ℚ).take 3) from by
      simp [baselineAt]]
    rw [show (([0, 2] : List ℚ).take 3) = [0, 2] from rfl]
    rw [anomalous_iff]
    left
    norm_num [mean, pvariance]
  · intro hmem
    obtain ⟨h0, htest⟩ := (mem_anomalies [0, 2, -2] 3 1 0).mp hmem
    rw [show anomTest [0, 2, -2] 3 1 0 =
      anomalous (([0, 2, -2] : List ℚ).getD 0 0) (baselineAt [0, 2, -2] 3 0) 1
        (([0, 2, -2] : List ℚ).take (0 + 1)) from rfl] at htest
    rw [show (([0, 2, -2] : List ℚ).getD 0 0) = 0 from rfl] at htest
    rw [show baselineAt [0, 2, -2] 3 0 = 0 from by
      norm_num [baselineAt, mean, show ([0, 2, -2] : List ℚ).take 3 = [0, 2, -2] from rfl]] at htest
    exact not_anomalous_self 0 1 _ (by norm_num) htest

/-- C7 amended: the monotone-extension property holds once the store already
contains at least `window_size` samples before the append (so the seed mean,
every baseline entry, and every dispersion prefix below the old length are
unchanged); every previously flagged index then remains flagged. -/
theorem claim7_monotone_when_seeded (s : List ℚ) (x : ℚ) (ws : ℕ) (t : ℚ)
    (h : ws ≤ s.length) :
    ∀ i ∈ (EMA s ws t).2, i ∈ (EMA (s ++ [x]) ws t).2 := by
  intro i hi
  obtain ⟨hlt, htest⟩ := (mem_anomalies s ws t i).mp hi
  refine (mem_anomalies (s ++ [x]) ws t i).mpr
    ⟨by simp only [List.length_append, List.length_cons, List.length_nil]; omega, ?_⟩
  have e1 : (s ++ [x]).getD i 0 = s.getD i 0 := List.getD_append s [x] 0 i hlt
  have e2 : baselineAt (s ++ [x]) ws i = baselineAt s ws i :=
    baselineAt_append s x ws h i hlt
  have e3 : (s ++ [x]).take (i + 1) = s.take (i + 1) :=
    List.take_append_of_le_length (by omega)
  rw [show anomTest (s ++ [x]) ws t i =
    anomalous ((s ++ [x]).getD i 0) (baselineAt (s ++ [x]) ws i) t
      ((s ++ [x]).take (i + 1)) from rfl]
  rw [e1, e2, e3]
  exact htest

lemma two_mem_ema_aux : 2 ∈ (EMA [0, 0, 100] 2 (1/2)).2 := by
  rw [mem_anomalies]
  refine ⟨by decide, ?_⟩
  show anomalous (([0, 0, 100] : List ℚ).getD 2 0) (baselineAt [0, 0, 100] 2 2) (1/2)
    (([0, 0, 100] : List ℚ).take (2 + 1))
  have hb1 : baselineAt [0, 0, 100] 2 1 = mean (([0, 0, 100] : List ℚ).take 2) :=
    baselineAt_of_lt _ 2 1 (by norm_num)
  have hb2 : baselineAt [0, 0, 100] 2 2 =
      (baselineAt [0, 0, 100] 2 1 * ((2 : ℚ) - 1) + ([0, 0, 100] : List ℚ).getD 2 0) / 2 := by
    show baselineAt [0, 0, 100] 2 (1 + 1) = _
    simp only [baselineAt]
    norm_num
  rw [hb2, hb1]
  rw [show (([0, 0, 100] : List ℚ).take 2) = [0, 0] from rfl]
  rw [show (([0, 0, 100] : List ℚ).getD 2 0) = 100 from rfl]
  rw [show (([0, 0, 100] : List ℚ).take (2 + 1)) = [0, 0, 100] from rfl]
  rw [anomalous_iff]
  left
  norm_num [mean, pvariance]

theorem claim7_witness :
    (2 ≤ ([0, 0, 100] : List ℚ).length ∧ 2 ∈ (EMA [0, 0, 100] 2 (1/2)).2) ∧
      2 ∈ (EMA (([0, 0, 100] : List ℚ) ++ [0]) 2 (1/2)).2 :=
  ⟨⟨by decide, two_mem_ema_aux⟩,
    claim7_monotone_when_seeded [0, 0, 100] 0 2 (1/2) (by decide) 2 two_mem_ema_aux⟩

/-- C4 (code defect): the store returned by `update` is never evicted. With
`max_window_size = 2`, appending 3 = `max_window_size + 1` samples to an empty
store yields a store of length 3, not 2; and one more append raises
`AttributeError` (`data.pop(0)` on a numpy array) instead of evicting. -/
theorem claim4_eviction_never_happens :
    appendAll [1, 2, 3] [] 2 = Except.ok ([1, 2, 3] : List ℚ) ∧
      ([1, 2, 3] : List ℚ).length ≠ 2 ∧
      appendAll [1, 2, 3, 4] [] 2 = Except.error "AttributeError" := by
  refine ⟨rfl, by decide, rfl⟩

lemma range_map_take_len (data : List ℚ) :
    (List.range data.length).map (fun i => (data.take (i + 1)).length) =
      (List.range data.length).map (fun i => i + 1) := by
  apply List.map_congr_left
  intro i hi
  have h := List.mem_range.mp hi
  rw [List.length_take]
  omega

lemma sum_range_succ_ids (n : ℕ) :
    2 * ((List.range n).map (fun i => i + 1)).sum = n * (n + 1) := by
  induction n with
  | zero => simp
  | succ m ih =>
      rw [List.range_succ, List.map_append, List.sum_append]
      simp only [List.map_cons, List.map_nil, List.sum_cons, List.sum_nil, add_zero]
      have h2 : 2 * (((List.range m).map (fun i => i + 1)).sum + (m + 1)) =
          2 * ((List.range m).map (fun i => i + 1)).sum + 2 * (m + 1) := by ring
      rw [h2, ih]
      ring

/-- C9 (code defect): one `compute` pass scans `1 + 2 + ... + N` samples in
the fresh `np.std(data[:i+1])` calls alone — `N(N+1)/2`, i.e. Θ(N²) total
work and Θ(N) for the newest index — not the O(N)-total / O(1)-per-sample
online accumulator the claim requires. -/
theorem claim9_std_cost_quadratic (data : List ℚ) :
    2 * emaStdScans data = data.length * (data.length + 1) := by
  rw [emaStdScans, range_map_take_len]
  exact sum_range_succ_ids data.length

/-- C8: when validation fails, the error is signalled before `process_data`
runs, so the session store is untouched: `submit` returns the `ValueError`
message and the loop's `data` variable keeps its old value, unchanged in
length and contents. -/
theorem claim8_invalid_input_no_mutation (raw : String) (data : List ℚ)
    (h : pyFloat raw = none) :
    submit raw data =
        Except.error "Invalid input! Please enter a valid floating-point number." ∧
      storeAfter raw data = data := by
  constructor
  · simp only [submit, preprocess, h]
  · simp only [storeAfter, submit, preprocess, h]

theorem claim8_witness :
    pyFloat "abc" = none ∧
      (submit "abc" [1, 2] =
          Except.error "Invalid input! Please enter a valid floating-point number." ∧
        storeAfter "abc" [1, 2] = [1, 2]) :=
  ⟨rfl, claim8_invalid_input_no_mutation "abc" [1, 2] rfl⟩

/-- C6 counterexample: the raw token `"nan"` is not rejected — Python
`float("nan")` succeeds, so `preprocess` returns it as a accepted sample
instead of signalling the validation error. -/
theorem claim6_counterexample : preprocess "nan" = Except.ok PyFloat.nan := rfl

/-- C6 amended: the validator returns a sample exactly when the string parses
as a Python float at all — NaN and infinite tokens included, they are
accepted, not rejected — and signals the `ValueError` message otherwise
(e.g. on `"abc"`); `"3.5"` parses to the finite sample `7/2`. -/
theorem claim6_validator_accepts_all_floats :
    (∀ raw : String, (∃ v, preprocess raw = Except.ok v) ↔ (pyFloat raw).isSome = true) ∧
      preprocess "inf" = Except.ok PyFloat.inf ∧
      preprocess "-Infinity" = Except.ok PyFloat.neginf ∧
      preprocess "NaN" = Except.ok PyFloat.nan ∧
      preprocess "abc" =
        Except.error "Invalid input! Please enter a valid floating-point number." ∧
      preprocess "3.5" = Except.ok (PyFloat.finite (7 / 2)) := by
  refine ⟨?_, rfl, rfl, rfl, rfl, ?_⟩
  · intro raw
    cases h : pyFloat raw with
    | none => simp [preprocess, h]
    | some v => simp [preprocess, h]
  · have h1 : pyFloat "3.5" =
        some (PyFloat.finite (((35 : ℕ) : ℚ) / (10 : ℚ) ^ (1 : ℕ) * (10 : ℚ) ^ (0 : ℤ))) := rfl
    simp only [preprocess, h1]
    norm_num

theorem claim2_witness :
    (1 ≤ 2 ∧ (0 : ℚ) < 1) ∧
      (0 ∈ (EMA [0, 2] 2 1).2 ↔
        (0 < ([0, 2] : List ℚ).length ∧
          |(([0, 2] : List ℚ).getD 0 0 : ℝ) - ((EMA [0, 2] 2 1).1.getD 0 0 : ℝ)| >
            ((1 : ℚ) : ℝ) *
              Real.sqrt ((pvariance (([0, 2] : List ℚ).take (0 + 1)) : ℚ) : ℝ))) :=
  ⟨⟨by decide, by norm_num⟩,
    claim2_anomaly_characterization [0, 2] 2 1 (by decide) (by norm_num) 0⟩

theorem claim3_witness :
    0 ∈ (EMA [0, 4] 2 1).2 ∧ 0 < ([0, 4] : List ℚ).length := by
  have hmem : 0 ∈ (EMA [0, 4] 2 1).2 := by
    rw [mem_anomalies]
    refine ⟨by decide, ?_⟩
    show anomalous (([0, 4] : List ℚ).getD 0 0) (baselineAt [0, 4] 2 0) 1
      (([0, 4] : List ℚ).take (0 + 1))
    rw [show (([0, 4] : List ℚ).getD 0 0) = 0 from rfl]
    rw [show (([0, 4] : List ℚ).take (0 + 1)) = [0] from rfl]
    rw [show baselineAt [0, 4] 2 0 = mean (([0, 4] : List ℚ).take 2) from by
      simp [baselineAt]]
    rw [show (([0, 4] : List ℚ).take 2) = [0, 4] from rfl]
    rw [anomalous_iff]
    left
    norm_num [mean, pvariance]
  exact ⟨hmem, (claim3_output_shape [0, 4] 2 1).2.2.1 0 hmem⟩
